import Mathlib

/-!
Shallow embedding of db_application/migrate.py, a small PostgreSQL schema
migration manager.

Raw SQL text is opaque: executing a statement against the database schema is
modelled by an oracle function exec : σ → Text → Option σ (none means the
statement raised an error, in which case the enclosing transaction is rolled
back).  The schema_migrations ledger table is modelled explicitly as the
list of recorded version strings, in insertion order; the opaque remainder
of the database is a value of the abstract type σ.  Directory listings are
lists of (filename, contents) pairs in arbitrary order.
-/

namespace Migrate

/-- Raw text (file contents, SQL statements) as a sequence of characters. -/
abbrev Text := List Char

/-- Model of Python s.split(sep): scan left to right, cutting at each
non-overlapping occurrence of sep.  The Nat argument counts characters of a
just-matched separator that remain to be skipped. -/
def pySplitGo (sep : Text) : Nat → Text → Text → List Text
  | _ + 1, acc, [] => [acc.reverse]
  | k + 1, acc, _ :: rest => pySplitGo sep k acc rest
  | 0, acc, [] => [acc.reverse]
  | 0, acc, c :: rest =>
    if sep ≠ [] ∧ sep.isPrefixOf (c :: rest) then
      acc.reverse :: pySplitGo sep (sep.length - 1) [] rest
    else
      pySplitGo sep 0 (c :: acc) rest

/-- Python s.split(sep), for a nonempty separator. -/
def pySplit (sep s : Text) : List Text := pySplitGo sep 0 [] s

/-- Model of Python s.replace(pat, ''): remove every non-overlapping
occurrence of pat, scanning left to right. -/
def pyRemoveGo (pat : Text) : Nat → Text → Text
  | _ + 1, [] => []
  | k + 1, _ :: rest => pyRemoveGo pat k rest
  | 0, [] => []
  | 0, c :: rest =>
    if pat ≠ [] ∧ pat.isPrefixOf (c :: rest) then
      pyRemoveGo pat (pat.length - 1) rest
    else
      c :: pyRemoveGo pat 0 rest

/-- Python s.replace(pat, ''). -/
def pyRemove (pat s : Text) : Text := pyRemoveGo pat 0 s

/-- Python s.strip(): remove whitespace from both ends. -/
def pyStrip (s : Text) : Text :=
  ((s.dropWhile Char.isWhitespace).reverse.dropWhile Char.isWhitespace).reverse

/-- Whether sep occurs as a contiguous block somewhere in s. -/
def hasTok (sep : Text) : Text → Bool
  | [] => sep.isEmpty
  | c :: rest => sep.isPrefixOf (c :: rest) || hasTok sep rest

/-- The text strictly before the first occurrence of sep (all of s when
there is none): parts[0] of Python s.split(sep). -/
def upToTok (sep : Text) : Text → Text
  | [] => []
  | c :: rest =>
    if sep.isPrefixOf (c :: rest) then [] else c :: upToTok sep rest

/-- The text strictly after the first occurrence of sep ([] when none). -/
def afterTok (sep : Text) : Text → Text
  | [] => []
  | c :: rest =>
    if sep.isPrefixOf (c :: rest) then (c :: rest).drop sep.length
    else afterTok sep rest

/-- The text after the first occurrence of sep, up to the next occurrence or
the end of the text: parts[1] of Python s.split(sep) when it exists. -/
def secondTok (sep s : Text) : Text := upToTok sep (afterTok sep s)

/-- The fixed delimiter between the UP and DOWN halves of a migration file. -/
def downMarker : Text := "-- DOWN".data

/-- The optional marker opening the UP half of a migration file. -/
def upMarker : Text := "-- UP".data

/-- Source: parts = content.split('-- DOWN');
up_sql = parts[0].replace('-- UP', '').strip(). -/
def codeUpBody (content : Text) : Text :=
  pyStrip (pyRemove upMarker (pySplit downMarker content).headI)

/-- Source: parts = content.split('-- DOWN'); none when len(parts) < 2
(no DOWN migration found), otherwise parts[1].strip(). -/
def codeDownBody (content : Text) : Option Text :=
  match pySplit downMarker content with
  | _ :: p :: _ => some (pyStrip p)
  | _ => none

/-- Exception kinds raised by the script. -/
inductive Err
  | ioError (filename : String)
  | execError (filename : String)
  | ledgerConflict (filename : String)
deriving DecidableEq

/-- Lines printed by the script. -/
inductive LogMsg
  | applied (filename : String)
  | errorApplying (filename : String)
  | noDown (filename : String)
  | rolledBack (filename : String)
  | errorRollingBack (filename : String)
  | noPending
  | noneToRollback
  | seeded (filename : String)
  | errorSeeding (filename : String)
  | seedsDirNotFound
  | noSeedFiles
  | migrationFailed
  | usage
deriving DecidableEq

/-- The durable database state: the schema_migrations ledger rows (version
strings, in insertion order; the version column is UNIQUE) plus the opaque
remainder of the schema. -/
structure DBState (σ : Type) where
  ledger : List String
  schema : σ
deriving DecidableEq

/-- Result of running one command: the final database state, the printed
lines, the opaque SQL texts passed to the database in execution order, and
the propagating exception when one was raised. -/
structure MResult (σ : Type) where
  st : DBState σ
  log : List LogMsg
  sqlTrace : List Text
  err : Option Err
deriving DecidableEq

/-- Code-point comparison of raw text: exactly Python's ordering of str
values, as used by sorted() - and by ORDER BY version in this model. -/
def strLe : Text → Text → Bool
  | [], _ => true
  | _ :: _, [] => false
  | a :: as, b :: bs => decide (a < b) || (a == b && strLe as bs)

/-- The ordering of identifiers: ascending by code point. -/
def fileLe (a b : String) : Prop := strLe a.data b.data = true

instance : DecidableRel fileLe := fun _ _ => instDecidableEqBool _ _

/-- Python sorted() on identifiers: a stable ascending sort. -/
def pySorted (l : List String) : List String := List.insertionSort fileLe l

/-- Source: get_migration_files() - files of the migration directory whose
name ends in '.sql' and does not start with 'seed_', sorted ascending. -/
def get_migration_files (files : List (String × String)) : List String :=
  pySorted ((files.map Prod.fst).filter
    (fun f => (".sql".data).isSuffixOf f.data &&
      !(("seed_".data).isPrefixOf f.data)))

/-- Source: get_applied_migrations() -
SELECT version FROM schema_migrations ORDER BY version. -/
def get_applied_migrations {σ : Type} (st : DBState σ) : List String :=
  pySorted st.ledger

/-- Source: create_migrations_table() - CREATE TABLE IF NOT EXISTS: the
ledger table always exists in this model, so this is the identity. -/
def create_migrations_table {σ : Type} (st : DBState σ) : DBState σ := st

/-- Source: run_migration_up(filename) - read the file, compute the up SQL,
execute it and INSERT the ledger row inside one transaction; on any error
roll the transaction back, report, and re-raise. -/
def run_migration_up {σ : Type} (exec : σ → Text → Option σ)
    (files : List (String × String)) (st : DBState σ) (filename : String) :
    MResult σ :=
  match files.lookup filename with
  | none => ⟨st, [], [], some (Err.ioError filename)⟩
  | some content =>
    match exec st.schema (codeUpBody content.data) with
    | none =>
      ⟨st, [LogMsg.errorApplying filename], [codeUpBody content.data],
        some (Err.execError filename)⟩
    | some sch =>
      if filename ∈ st.ledger then
        ⟨st, [LogMsg.errorApplying filename], [codeUpBody content.data],
          some (Err.ledgerConflict filename)⟩
      else
        ⟨⟨st.ledger ++ [filename], sch⟩, [LogMsg.applied filename],
          [codeUpBody content.data], none⟩

/-- Source: run_migration_down(filename) - read the file; when it has no
DOWN part report and return normally; otherwise execute the down SQL and
DELETE the ledger row inside one transaction; on error roll back, report,
and re-raise. -/
def run_migration_down {σ : Type} (exec : σ → Text → Option σ)
    (files : List (String × String)) (st : DBState σ) (filename : String) :
    MResult σ :=
  match files.lookup filename with
  | none => ⟨st, [], [], some (Err.ioError filename)⟩
  | some content =>
    match codeDownBody content.data with
    | none => ⟨st, [LogMsg.noDown filename], [], none⟩
    | some down_sql =>
      match exec st.schema down_sql with
      | none =>
        ⟨st, [LogMsg.errorRollingBack filename], [down_sql],
          some (Err.execError filename)⟩
      | some sch =>
        ⟨⟨st.ledger.filter (fun v => decide (v ≠ filename)), sch⟩,
          [LogMsg.rolledBack filename], [down_sql], none⟩

/-- The loop of migrate_up(): run each pending migration in order, stopping
at the first raised exception, which propagates. -/
def runUpList {σ : Type} (exec : σ → Text → Option σ)
    (files : List (String × String)) (st : DBState σ) :
    List String → MResult σ
  | [] => ⟨st, [], [], none⟩
  | m :: rest =>
    let r := run_migration_up exec files st m
    match r.err with
    | some _ => r
    | none =>
      let r2 := runUpList exec files r.st rest
      ⟨r2.st, r.log ++ r2.log, r.sqlTrace ++ r2.sqlTrace, r2.err⟩

/-- Source: pending = [m for m in migrations if m not in applied]. -/
def pendingOf {σ : Type} (files : List (String × String)) (st : DBState σ) :
    List String :=
  (get_migration_files files).filter
    (fun m => m ∉ get_applied_migrations st)

/-- Source: migrate_up(). -/
def migrate_up {σ : Type} (exec : σ → Text → Option σ)
    (files : List (String × String)) (st : DBState σ) : MResult σ :=
  let st1 := create_migrations_table st
  let pending := pendingOf files st1
  if pending = [] then ⟨st1, [LogMsg.noPending], [], none⟩
  else runUpList exec files st1 pending

/-- Source: migrate_down() - roll back applied[-1], the last element of the
applied list in ascending version order. -/
def migrate_down {σ : Type} (exec : σ → Text → Option σ)
    (files : List (String × String)) (st : DBState σ) : MResult σ :=
  let st1 := create_migrations_table st
  match (get_applied_migrations st1).getLast? with
  | none => ⟨st1, [LogMsg.noneToRollback], [], none⟩
  | some last_migration => run_migration_down exec files st1 last_migration

/-- The loop of migrate_reset(): run each rollback in order, stopping at the
first raised exception, which propagates. -/
def runDownList {σ : Type} (exec : σ → Text → Option σ)
    (files : List (String × String)) (st : DBState σ) :
    List String → MResult σ
  | [] => ⟨st, [], [], none⟩
  | m :: rest =>
    let r := run_migration_down exec files st m
    match r.err with
    | some _ => r
    | none =>
      let r2 := runDownList exec files r.st rest
      ⟨r2.st, r.log ++ r2.log, r.sqlTrace ++ r2.sqlTrace, r2.err⟩

/-- Source: migrate_reset() - roll back every applied migration, in reversed
applied (i.e. descending version) order. -/
def migrate_reset {σ : Type} (exec : σ → Text → Option σ)
    (files : List (String × String)) (st : DBState σ) : MResult σ :=
  let st1 := create_migrations_table st
  let applied := get_applied_migrations st1
  if applied = [] then ⟨st1, [LogMsg.noneToRollback], [], none⟩
  else runDownList exec files st1 applied.reverse

/-- The loop of run_seeds(): one shared connection; each seed file is
executed and committed (or rolled back) on its own, and execution failures
do not stop the loop.  An unreadable file, by contrast, raises before the
try block and propagates. -/
def runSeedList {σ : Type} (exec : σ → Text → Option σ)
    (entries : List (String × String)) (st : DBState σ) :
    List String → MResult σ
  | [] => ⟨st, [], [], none⟩
  | f :: rest =>
    match entries.lookup f with
    | none => ⟨st, [], [], some (Err.ioError f)⟩
    | some content =>
      match exec st.schema content.data with
      | none =>
        let r := runSeedList exec entries st rest
        ⟨r.st, LogMsg.errorSeeding f :: r.log,
          content.data :: r.sqlTrace, r.err⟩
      | some sch =>
        let r := runSeedList exec entries ⟨st.ledger, sch⟩ rest
        ⟨r.st, LogMsg.seeded f :: r.log,
          content.data :: r.sqlTrace, r.err⟩

/-- Source: seed_files = sorted([f for f in os.listdir(SEEDS_DIR) if
f.endswith('.sql')]). -/
def seedFilesOf (entries : List (String × String)) : List String :=
  pySorted ((entries.map Prod.fst).filter
    (fun f => (".sql".data).isSuffixOf f.data))

/-- Source: run_seeds() - seeds is none when the seeds subdirectory does not
exist, otherwise its listing as (filename, contents) pairs. -/
def run_seeds {σ : Type} (exec : σ → Text → Option σ)
    (seeds : Option (List (String × String))) (st : DBState σ) : MResult σ :=
  match seeds with
  | none => ⟨st, [LogMsg.seedsDirNotFound], [], none⟩
  | some entries =>
    if seedFilesOf entries = [] then ⟨st, [LogMsg.noSeedFiles], [], none⟩
    else runSeedList exec entries st (seedFilesOf entries)

/-- The __main__ block: dispatch on sys.argv[1], catch any exception, print
the failure and exit 1; exit 0 on a clean run.  argv stands for
sys.argv[1:], and the second component is the process exit code. -/
def mainCmd {σ : Type} (exec : σ → Text → Option σ)
    (files : List (String × String)) (seeds : Option (List (String × String)))
    (st : DBState σ) (argv : List String) : MResult σ × Nat :=
  match argv with
  | [] => (⟨st, [LogMsg.usage], [], none⟩, 1)
  | cmd :: _ =>
    if cmd = "up" ∨ cmd = "down" ∨ cmd = "reset" ∨ cmd = "seed" then
      let r : MResult σ :=
        if cmd = "up" then migrate_up exec files st
        else if cmd = "down" then migrate_down exec files st
        else if cmd = "reset" then migrate_reset exec files st
        else run_seeds exec seeds st
      match r.err with
      | some _ =>
        (⟨r.st, r.log ++ [LogMsg.migrationFailed], r.sqlTrace, r.err⟩, 1)
      | none => (r, 0)
    else (⟨st, [LogMsg.usage], [], none⟩, 1)

/-! Order lemmas for the identifier comparison. -/

theorem strLe_refl : ∀ a : Text, strLe a a = true
  | [] => rfl
  | a :: as => by simp [strLe, strLe_refl as]

theorem strLe_total : ∀ a b : Text, strLe a b = true ∨ strLe b a = true
  | [], _ => Or.inl rfl
  | _ :: _, [] => Or.inr rfl
  | a :: as, b :: bs => by
    rcases lt_trichotomy a b with h | h | h
    · left; simp [strLe, h]
    · subst h
      rcases strLe_total as bs with h2 | h2
      · left; simp [strLe, h2]
      · right; simp [strLe, h2]
    · right; simp [strLe, h]

theorem strLe_trans :
    ∀ a b c : Text, strLe a b = true → strLe b c = true → strLe a c = true
  | [], _, _, _, _ => rfl
  | _ :: _, [], _, h1, _ => by simp [strLe] at h1
  | _ :: _, _ :: _, [], _, h2 => by simp [strLe] at h2
  | a :: as, b :: bs, c :: cs, h1, h2 => by
    simp only [strLe, Bool.or_eq_true, Bool.and_eq_true, decide_eq_true_eq,
      beq_iff_eq] at h1 h2 ⊢
    rcases h1 with h1 | ⟨rfl, h1⟩
    · rcases h2 with h2 | ⟨rfl, h2⟩
      · exact Or.inl (lt_trans h1 h2)
      · exact Or.inl h1
    · rcases h2 with h2 | ⟨rfl, h2⟩
      · exact Or.inl h2
      · exact Or.inr ⟨rfl, strLe_trans as bs cs h1 h2⟩

theorem strLe_antisymm :
    ∀ a b : Text, strLe a b = true → strLe b a = true → a = b
  | [], [], _, _ => rfl
  | [], _ :: _, _, h2 => by simp [strLe] at h2
  | _ :: _, [], h1, _ => by simp [strLe] at h1
  | a :: as, b :: bs, h1, h2 => by
    simp only [strLe, Bool.or_eq_true, Bool.and_eq_true, decide_eq_true_eq,
      beq_iff_eq] at h1 h2
    rcases h1 with h1 | ⟨rfl, h1⟩
    · rcases h2 with h2 | ⟨rfl, h2⟩
      · exact absurd h2 (asymm h1)
      · exact absurd h1 (lt_irrefl _)
    · rcases h2 with h2 | ⟨_, h2⟩
      · exact absurd h2 (lt_irrefl _)
      · rw [strLe_antisymm as bs h1 h2]

instance : IsTrans String fileLe :=
  ⟨fun a b c => strLe_trans a.data b.data c.data⟩

instance : IsTotal String fileLe :=
  ⟨fun a b => strLe_total a.data b.data⟩

instance : IsAntisymm String fileLe :=
  ⟨fun a b h1 h2 => String.ext (strLe_antisymm a.data b.data h1 h2)⟩

instance : IsRefl String fileLe := ⟨fun a => strLe_refl a.data⟩

theorem pySorted_perm (l : List String) : (pySorted l).Perm l :=
  List.perm_insertionSort fileLe l

theorem mem_pySorted {a : String} {l : List String} :
    a ∈ pySorted l ↔ a ∈ l :=
  (pySorted_perm l).mem_iff

theorem pySorted_sorted (l : List String) : List.Sorted fileLe (pySorted l) :=
  List.sorted_insertionSort fileLe l

theorem pySorted_eq_of_perm {l1 l2 : List String} (h : l1.Perm l2) :
    pySorted l1 = pySorted l2 :=
  List.eq_of_perm_of_sorted (((pySorted_perm l1).trans h).trans
    (pySorted_perm l2).symm) (pySorted_sorted l1) (pySorted_sorted l2)

theorem pySorted_eq_nil_iff {l : List String} : pySorted l = [] ↔ l = [] := by
  constructor
  · intro h
    have := (pySorted_perm l).symm
    rw [h] at this
    exact this.eq_nil
  · intro h
    subst h
    rfl

theorem getLast?_mem_self {α : Type} :
    ∀ {l : List α} {m : α}, l.getLast? = some m → m ∈ l := by
  intro l m h
  rcases List.getLast?_eq_some_iff.mp h with ⟨ys, rfl⟩
  simp

theorem sorted_getLast_max {l : List String} (hs : List.Sorted fileLe l)
    {m x : String} (hl : l.getLast? = some m) (hx : x ∈ l) : fileLe x m := by
  rcases List.getLast?_eq_some_iff.mp hl with ⟨ys, rfl⟩
  rcases List.mem_append.mp hx with hx | hx
  · exact (List.pairwise_append.mp hs).2.2 x hx m (List.mem_singleton_self m)
  · rw [List.mem_singleton.mp hx]
    exact strLe_refl m.data

/-! Structure lemmas for the Python split model. -/

theorem pySplitGo_skip (sep : Text) :
    ∀ (s : Text) (k : Nat) (acc : Text),
      pySplitGo sep k acc s = pySplitGo sep 0 acc (s.drop k)
  | [], 0, _ => rfl
  | [], _ + 1, _ => rfl
  | _ :: _, 0, _ => rfl
  | c :: rest, k + 1, acc => by
    show pySplitGo sep k acc rest = pySplitGo sep 0 acc ((c :: rest).drop (k + 1))
    rw [List.drop_succ_cons]
    exact pySplitGo_skip sep rest k acc

theorem pySplitGo_eq (x : Char) (xs : Text) :
    ∀ (s acc : Text),
      pySplitGo (x :: xs) 0 acc s =
        if hasTok (x :: xs) s then
          (acc.reverse ++ upToTok (x :: xs) s) ::
            pySplitGo (x :: xs) 0 [] (afterTok (x :: xs) s)
        else [acc.reverse ++ s]
  | [], acc => by
    simp [pySplitGo, hasTok, List.isEmpty_iff]
  | c :: rest, acc => by
    by_cases hp : (x :: xs).isPrefixOf (c :: rest)
    · have h1 : pySplitGo (x :: xs) 0 acc (c :: rest) =
          acc.reverse :: pySplitGo (x :: xs) xs.length [] rest := by
        simp [pySplitGo, hp]
      have h2 : hasTok (x :: xs) (c :: rest) = true := by
        simp [hasTok, hp]
      have h3 : upToTok (x :: xs) (c :: rest) = [] := by
        simp [upToTok, hp]
      have h4 : afterTok (x :: xs) (c :: rest) = rest.drop xs.length := by
        simp [afterTok, hp, List.length_cons, List.drop_succ_cons]
      rw [h1, h2, h3, h4, if_pos rfl, List.append_nil, pySplitGo_skip]
    · have h1 : pySplitGo (x :: xs) 0 acc (c :: rest) =
          pySplitGo (x :: xs) 0 (c :: acc) rest := by
        simp [pySplitGo, hp]
      have h2 : hasTok (x :: xs) (c :: rest) = hasTok (x :: xs) rest := by
        simp [hasTok, hp]
      have h3 : upToTok (x :: xs) (c :: rest) = c :: upToTok (x :: xs) rest := by
        simp [upToTok, hp]
      have h4 : afterTok (x :: xs) (c :: rest) = afterTok (x :: xs) rest := by
        simp [afterTok, hp]
      rw [h1, pySplitGo_eq x xs rest (c :: acc), h2, h3, h4]
      by_cases ht : hasTok (x :: xs) rest
      · rw [if_pos ht, if_pos ht]
        simp
      · rw [if_neg ht, if_neg ht]
        simp

theorem upToTok_of_no (sep : Text) :
    ∀ s : Text, hasTok sep s = false → upToTok sep s = s
  | [], _ => rfl
  | c :: rest, h => by
    simp only [hasTok, Bool.or_eq_false_iff] at h
    simp [upToTok, h.1, upToTok_of_no sep rest h.2]

theorem pySplit_eq (x : Char) (xs : Text) (s : Text) :
    pySplit (x :: xs) s =
      if hasTok (x :: xs) s then
        upToTok (x :: xs) s ::
          pySplitGo (x :: xs) 0 [] (afterTok (x :: xs) s)
      else [s] := by
  have := pySplitGo_eq x xs s []
  simpa [pySplit] using this

theorem downMarker_cons : ∃ x xs, downMarker = x :: xs :=
  ⟨'-', "- DOWN".data, by decide⟩

theorem codeDownBody_eq (content : Text) :
    codeDownBody content =
      if hasTok downMarker content then
        some (pyStrip (secondTok downMarker content))
      else none := by
  obtain ⟨x, xs, hdm⟩ := downMarker_cons
  rw [codeDownBody, hdm, pySplit_eq]
  by_cases ht : hasTok (x :: xs) content
  · rw [if_pos ht, if_pos ht, pySplitGo_eq]
    by_cases ht2 : hasTok (x :: xs) (afterTok (x :: xs) content)
    · rw [if_pos ht2]
      simp [secondTok]
    · rw [if_neg ht2]
      simp [secondTok,
        upToTok_of_no (x :: xs) _ (Bool.not_eq_true _ ▸ ht2)]
  · rw [if_neg ht, if_neg ht]

theorem headI_pySplit (x : Char) (xs s : Text) :
    (pySplit (x :: xs) s).headI = upToTok (x :: xs) s := by
  rw [pySplit_eq]
  by_cases ht : hasTok (x :: xs) s
  · rw [if_pos ht]
    rfl
  · rw [if_neg ht]
    simp [upToTok_of_no (x :: xs) s (Bool.not_eq_true _ ▸ ht)]

theorem codeUpBody_eq (content : Text) :
    codeUpBody content =
      pyStrip (pyRemove upMarker (upToTok downMarker content)) := by
  obtain ⟨x, xs, hdm⟩ := downMarker_cons
  rw [codeUpBody, hdm, headI_pySplit]

/-- C4 counterexample: with two occurrences of the delimiter, the code's
down body is only the text between the first and the second occurrence,
not the entire text after the first occurrence. -/
theorem down_body_after_first_delimiter_cex :
    codeDownBody ("a;-- DOWN b;-- DOWN c;".data) ≠
      some (pyStrip (afterTok downMarker ("a;-- DOWN b;-- DOWN c;".data))) ∧
    codeDownBody ("a;-- DOWN b;-- DOWN c;".data) = some ("b;".data) ∧
    pyStrip (afterTok downMarker ("a;-- DOWN b;-- DOWN c;".data)) =
      "b;-- DOWN c;".data := by decide

/-- C4 (amended): split yields a down body exactly when the delimiter
occurs in the text, and that body is the text after the first occurrence of
the delimiter, up to the next occurrence or the end of the text, trimmed of
surrounding whitespace. -/
theorem down_body_amended (content : Text) :
    (codeDownBody content = none ↔ hasTok downMarker content = false) ∧
    (hasTok downMarker content = true →
      codeDownBody content = some (pyStrip (secondTok downMarker content))) := by
  rw [codeDownBody_eq]
  constructor
  · by_cases ht : hasTok downMarker content <;> simp [ht]
  · intro ht
    rw [if_pos ht]

theorem down_body_amended_witness :
    codeDownBody ("a;-- DOWN b;".data) =
      some (pyStrip (secondTok downMarker ("a;-- DOWN b;".data))) :=
  (down_body_amended ("a;-- DOWN b;".data)).2 (by decide)

/-- C5: a migration whose text before the delimiter, after stripping the
marker and trimming whitespace, is empty makes run_migration_up fail (the
database rejects the empty statement, as psycopg2 does), leaving the state
unchanged: no ledger entry is recorded and the error propagates. -/
theorem up_empty_body_fails {σ : Type} (exec : σ → Text → Option σ)
    (files : List (String × String)) (st : DBState σ) (f : String)
    (content : String) (hl : files.lookup f = some content)
    (hempty : pyStrip (pyRemove upMarker (upToTok downMarker content.data)) = [])
    (hexec : exec st.schema [] = none) :
    run_migration_up exec files st f =
      ⟨st, [LogMsg.errorApplying f], [[]], some (Err.execError f)⟩ := by
  have hub : codeUpBody content.data = [] := by rw [codeUpBody_eq, hempty]
  simp only [run_migration_up, hl, hub, hexec]

theorem up_empty_body_fails_witness :
    run_migration_up (fun (n : Nat) s => if s.isEmpty then none else some n)
      [("001.sql", "-- UP\n  \n-- DOWN\ndrop;")] ⟨[], 0⟩ "001.sql" =
      ⟨⟨[], 0⟩, [LogMsg.errorApplying "001.sql"], [[]],
        some (Err.execError "001.sql")⟩ :=
  up_empty_body_fails (fun (n : Nat) s => if s.isEmpty then none else some n)
    [("001.sql", "-- UP\n  \n-- DOWN\ndrop;")] ⟨[], 0⟩ "001.sql"
    "-- UP\n  \n-- DOWN\ndrop;" (by decide) (by decide) (by decide)

/-- C6: rolling back a migration whose file has no delimiter reports that no
DOWN migration was found, raises nothing, executes no SQL, and leaves the
whole state - in particular the ledger entry - intact. -/
theorem down_no_delimiter_intact {σ : Type} (exec : σ → Text → Option σ)
    (files : List (String × String)) (st : DBState σ) (f : String)
    (content : String) (hl : files.lookup f = some content)
    (hno : hasTok downMarker content.data = false) :
    run_migration_down exec files st f = ⟨st, [LogMsg.noDown f], [], none⟩ ∧
    (f ∈ st.ledger → f ∈ (run_migration_down exec files st f).st.ledger) := by
  have hdb : codeDownBody content.data = none := by
    rw [codeDownBody_eq, hno]
    rfl
  have h1 : run_migration_down exec files st f =
      ⟨st, [LogMsg.noDown f], [], none⟩ := by
    simp only [run_migration_down, hl, hdb]
  exact ⟨h1, fun hf => by rw [h1]; exact hf⟩

theorem down_no_delimiter_intact_witness :
    run_migration_down (fun (n : Nat) _ => some (n + 1))
      [("001.sql", "create;")] ⟨["001.sql"], 0⟩ "001.sql" =
      ⟨⟨["001.sql"], 0⟩, [LogMsg.noDown "001.sql"], [], none⟩ ∧
    ("001.sql" ∈ (⟨["001.sql"], 0⟩ : DBState Nat).ledger →
      "001.sql" ∈ (run_migration_down (fun (n : Nat) _ => some (n + 1))
        [("001.sql", "create;")] ⟨["001.sql"], 0⟩ "001.sql").st.ledger) :=
  down_no_delimiter_intact (fun (n : Nat) _ => some (n + 1))
    [("001.sql", "create;")] ⟨["001.sql"], 0⟩ "001.sql" "create;"
    (by decide) (by decide)

/-! Characterization of one up unit and of the migrate_up loop. -/

theorem run_migration_up_ok {σ : Type} (exec : σ → Text → Option σ)
    (files : List (String × String)) (st : DBState σ) (f : String)
    (h : (run_migration_up exec files st f).err = none) :
    ∃ content sch, files.lookup f = some content ∧
      exec st.schema (codeUpBody content.data) = some sch ∧
      f ∉ st.ledger ∧
      run_migration_up exec files st f =
        ⟨⟨st.ledger ++ [f], sch⟩, [LogMsg.applied f],
          [codeUpBody content.data], none⟩ := by
  rcases hl : files.lookup f with _ | content
  · simp [run_migration_up, hl] at h
  · rcases he : exec st.schema (codeUpBody content.data) with _ | sch
    · simp [run_migration_up, hl, he] at h
    · by_cases hm : f ∈ st.ledger
      · simp [run_migration_up, hl, he, hm] at h
      · refine ⟨content, sch, rfl, he, hm, ?_⟩
        simp [run_migration_up, hl, he, hm]

theorem run_migration_up_fail {σ : Type} (exec : σ → Text → Option σ)
    (files : List (String × String)) (st : DBState σ) (f : String) (e : Err)
    (h : (run_migration_up exec files st f).err = some e) :
    (run_migration_up exec files st f).st = st := by
  rcases hl : files.lookup f with _ | content
  · simp [run_migration_up, hl]
  · rcases he : exec st.schema (codeUpBody content.data) with _ | sch
    · simp [run_migration_up, hl, he]
    · by_cases hm : f ∈ st.ledger
      · simp [run_migration_up, hl, he, hm]
      · simp [run_migration_up, hl, he, hm] at h

theorem runUpList_fail_fast_lemma {σ : Type} (exec : σ → Text → Option σ)
    (files : List (String × String)) (st : DBState σ) (m : String)
    (rest : List String) (e : Err)
    (h : (run_migration_up exec files st m).err = some e) :
    runUpList exec files st (m :: rest) = run_migration_up exec files st m := by
  simp [runUpList, h]

theorem runUpList_cons_ok {σ : Type} (exec : σ → Text → Option σ)
    (files : List (String × String)) (st : DBState σ) (m : String)
    (rest : List String)
    (h : (run_migration_up exec files st m).err = none) :
    runUpList exec files st (m :: rest) =
      ⟨(runUpList exec files (run_migration_up exec files st m).st rest).st,
       (run_migration_up exec files st m).log ++
         (runUpList exec files (run_migration_up exec files st m).st rest).log,
       (run_migration_up exec files st m).sqlTrace ++
         (runUpList exec files (run_migration_up exec files st m).st rest).sqlTrace,
       (runUpList exec files (run_migration_up exec files st m).st rest).err⟩ := by
  simp [runUpList, h]

theorem runUpList_ok {σ : Type} (exec : σ → Text → Option σ)
    (files : List (String × String)) :
    ∀ (ms : List String) (st : DBState σ),
      (runUpList exec files st ms).err = none →
      (runUpList exec files st ms).st.ledger = st.ledger ++ ms ∧
      (runUpList exec files st ms).log = ms.map LogMsg.applied
  | [], st, _ => by simp [runUpList]
  | m :: rest, st, h => by
    rcases he : (run_migration_up exec files st m).err with _ | e
    · obtain ⟨content, sch, _, _, _, heq⟩ :=
        run_migration_up_ok exec files st m he
      rw [runUpList_cons_ok exec files st m rest he, heq] at h ⊢
      dsimp only at h ⊢
      have ih := runUpList_ok exec files rest ⟨st.ledger ++ [m], sch⟩ h
      rw [ih.1, ih.2]
      simp
    · rw [runUpList_fail_fast_lemma exec files st m rest e he, he] at h
      cases h

theorem mem_pendingOf {σ : Type} {files : List (String × String)}
    {st : DBState σ} {m : String} :
    m ∈ pendingOf files st ↔
      m ∈ get_migration_files files ∧ m ∉ st.ledger := by
  simp [pendingOf, List.mem_filter, get_applied_migrations, mem_pySorted]

theorem get_applied_sorted {σ : Type} (st : DBState σ) :
    List.Sorted fileLe (get_applied_migrations st) :=
  pySorted_sorted st.ledger

theorem migrate_up_ledger {σ : Type} (exec : σ → Text → Option σ)
    (files : List (String × String)) (st : DBState σ)
    (hok : (migrate_up exec files st).err = none) :
    (migrate_up exec files st).st.ledger = st.ledger ++ pendingOf files st := by
  by_cases hp : pendingOf files st = []
  · simp [migrate_up, create_migrations_table, hp]
  · have hru : migrate_up exec files st =
        runUpList exec files st (pendingOf files st) := by
      simp [migrate_up, create_migrations_table, hp]
    rw [hru] at hok ⊢
    exact (runUpList_ok exec files (pendingOf files st) st hok).1

theorem migrate_up_no_pending {σ : Type} (exec : σ → Text → Option σ)
    (files : List (String × String)) (st : DBState σ)
    (hp : pendingOf files st = []) :
    migrate_up exec files st = ⟨st, [LogMsg.noPending], [], none⟩ := by
  simp [migrate_up, create_migrations_table, hp]

theorem migrate_up_idempotent {σ : Type} (exec : σ → Text → Option σ)
    (files : List (String × String)) (st : DBState σ)
    (hok : (migrate_up exec files st).err = none) :
    migrate_up exec files (migrate_up exec files st).st =
      ⟨(migrate_up exec files st).st, [LogMsg.noPending], [], none⟩ := by
  have hled := migrate_up_ledger exec files st hok
  have hp2 : pendingOf files (migrate_up exec files st).st = [] := by
    unfold pendingOf
    rw [List.filter_eq_nil_iff]
    intro m hm
    simp only [decide_eq_true_eq, Decidable.not_not]
    rw [get_applied_migrations, mem_pySorted, hled]
    by_cases hin : m ∈ st.ledger
    · exact List.mem_append.mpr (Or.inl hin)
    · exact List.mem_append.mpr (Or.inr (mem_pendingOf.mpr ⟨hm, hin⟩))
  exact migrate_up_no_pending exec files _ hp2

/-- C1: pending is the set difference of the discoverable migrations and
the ledger, keeping the ascending order of list_migrations(); after a fully
successful up() the ledger is the old ledger plus exactly the pending list;
a second up() with no new files changes nothing, executes no SQL, and only
reports that there is no pending work. -/
theorem up_pending_diff_and_idempotent {σ : Type} (exec : σ → Text → Option σ)
    (files : List (String × String)) (st : DBState σ)
    (hok : (migrate_up exec files st).err = none) :
    (∀ m, m ∈ pendingOf files st ↔
      m ∈ get_migration_files files ∧ m ∉ st.ledger) ∧
    (pendingOf files st).Sublist (get_migration_files files) ∧
    List.Sorted fileLe (pendingOf files st) ∧
    (migrate_up exec files st).st.ledger = st.ledger ++ pendingOf files st ∧
    migrate_up exec files (migrate_up exec files st).st =
      ⟨(migrate_up exec files st).st, [LogMsg.noPending], [], none⟩ :=
  ⟨fun _ => mem_pendingOf, List.filter_sublist _,
    (pySorted_sorted _).filter _,
    migrate_up_ledger exec files st hok,
    migrate_up_idempotent exec files st hok⟩

theorem up_pending_diff_and_idempotent_witness :
    (migrate_up (fun (n : Nat) _ => some (n + 1))
        [("002_b.sql", "create b;"), ("001_a.sql", "create a;")]
        ⟨["001_a.sql"], 0⟩).st.ledger =
      ["001_a.sql"] ++ pendingOf
        [("002_b.sql", "create b;"), ("001_a.sql", "create a;")]
        (⟨["001_a.sql"], 0⟩ : DBState Nat) ∧
    migrate_up (fun (n : Nat) _ => some (n + 1))
        [("002_b.sql", "create b;"), ("001_a.sql", "create a;")]
        (migrate_up (fun (n : Nat) _ => some (n + 1))
          [("002_b.sql", "create b;"), ("001_a.sql", "create a;")]
          ⟨["001_a.sql"], 0⟩).st =
      ⟨(migrate_up (fun (n : Nat) _ => some (n + 1))
          [("002_b.sql", "create b;"), ("001_a.sql", "create a;")]
          ⟨["001_a.sql"], 0⟩).st, [LogMsg.noPending], [], none⟩ :=
  ⟨(up_pending_diff_and_idempotent (fun (n : Nat) _ => some (n + 1))
      [("002_b.sql", "create b;"), ("001_a.sql", "create a;")]
      ⟨["001_a.sql"], 0⟩ (by decide)).2.2.2.1,
   (up_pending_diff_and_idempotent (fun (n : Nat) _ => some (n + 1))
      [("002_b.sql", "create b;"), ("001_a.sql", "create a;")]
      ⟨["001_a.sql"], 0⟩ (by decide)).2.2.2.2⟩

/-- C2: one migration's up SQL and its ledger insert form one atomic unit -
on success the ledger gains exactly the one row and the schema is the result
of executing the up SQL, on any failure the whole state is unchanged; a
failing unit aborts the run immediately (the remaining pending list is never
consulted) and the error propagates to the caller, which exits nonzero. -/
theorem up_unit_atomic_fail_fast {σ : Type} (exec : σ → Text → Option σ)
    (files : List (String × String)) :
    (∀ (st : DBState σ) (f : String),
      (run_migration_up exec files st f).err = none →
      ∃ content sch, files.lookup f = some content ∧
        exec st.schema (codeUpBody content.data) = some sch ∧
        (run_migration_up exec files st f).st = ⟨st.ledger ++ [f], sch⟩) ∧
    (∀ (st : DBState σ) (f : String) (e : Err),
      (run_migration_up exec files st f).err = some e →
      (run_migration_up exec files st f).st = st) ∧
    (∀ (st : DBState σ) (m : String) (rest : List String) (e : Err),
      (run_migration_up exec files st m).err = some e →
      runUpList exec files st (m :: rest) = run_migration_up exec files st m) ∧
    (∀ (seeds : Option (List (String × String))) (st : DBState σ) (e : Err),
      (migrate_up exec files st).err = some e →
      (mainCmd exec files seeds st ["up"]).2 = 1 ∧
      (mainCmd exec files seeds st ["up"]).1.err = some e) := by
  refine ⟨?_, ?_, ?_, ?_⟩
  · intro st f h
    obtain ⟨content, sch, hl, he, _, heq⟩ := run_migration_up_ok exec files st f h
    exact ⟨content, sch, hl, he, by rw [heq]⟩
  · intro st f e h
    exact run_migration_up_fail exec files st f e h
  · intro st m rest e h
    exact runUpList_fail_fast_lemma exec files st m rest e h
  · intro seeds st e h
    constructor <;> simp [mainCmd, h]

theorem up_unit_atomic_fail_fast_witness :
    (mainCmd (fun (_ : Nat) _ => (none : Option Nat))
      [("001.sql", "x;")] none ⟨[], 0⟩ ["up"]).2 = 1 ∧
    (mainCmd (fun (_ : Nat) _ => (none : Option Nat))
      [("001.sql", "x;")] none ⟨[], 0⟩ ["up"]).1.err =
      some (Err.execError "001.sql") :=
  (up_unit_atomic_fail_fast (fun (_ : Nat) _ => (none : Option Nat))
    [("001.sql", "x;")]).2.2.2 none ⟨[], 0⟩ (Err.execError "001.sql")
    (by decide)

/-- C3: with a non-empty ledger, down() rolls back exactly one migration:
the identifier that is lexicographically greatest among the ledger entries,
chosen from the ledger alone - the same identifier for every state of the
migration directory, even one from which the file is absent. -/
theorem down_targets_ledger_max {σ : Type} (exec : σ → Text → Option σ)
    (st : DBState σ) (hne : st.ledger ≠ []) :
    ∃ m, m ∈ st.ledger ∧ (∀ x ∈ st.ledger, fileLe x m) ∧
      (∀ files, migrate_down exec files st =
        run_migration_down exec files st m) := by
  obtain ⟨m, hm⟩ : ∃ m, (get_applied_migrations st).getLast? = some m := by
    rcases hlast : (get_applied_migrations st).getLast? with _ | m
    · rw [List.getLast?_eq_none_iff] at hlast
      exact absurd (pySorted_eq_nil_iff.mp hlast) hne
    · exact ⟨m, rfl⟩
  refine ⟨m, mem_pySorted.mp (getLast?_mem_self hm), ?_, ?_⟩
  · intro x hx
    exact sorted_getLast_max (get_applied_sorted st) hm (mem_pySorted.mpr hx)
  · intro files
    simp [migrate_down, create_migrations_table, hm]

theorem down_targets_ledger_max_witness :
    ∃ m, m ∈ (⟨["001.sql", "003.sql", "002.sql"], 0⟩ : DBState Nat).ledger ∧
      (∀ x ∈ (⟨["001.sql", "003.sql", "002.sql"], 0⟩ : DBState Nat).ledger,
        fileLe x m) ∧
      (∀ files, migrate_down (fun (n : Nat) _ => some (n + 1)) files
          ⟨["001.sql", "003.sql", "002.sql"], 0⟩ =
        run_migration_down (fun (n : Nat) _ => some (n + 1)) files
          ⟨["001.sql", "003.sql", "002.sql"], 0⟩ m) :=
  down_targets_ledger_max (fun (n : Nat) _ => some (n + 1))
    ⟨["001.sql", "003.sql", "002.sql"], 0⟩ (by decide)

/-! Characterization of one down unit and of the reset loop. -/

theorem run_migration_down_cases {σ : Type} (exec : σ → Text → Option σ)
    (files : List (String × String)) (st : DBState σ) (f : String) :
    ((run_migration_down exec files st f).log = [] ∧
      (run_migration_down exec files st f).err = some (Err.ioError f)) ∨
    ((run_migration_down exec files st f).log = [LogMsg.noDown f] ∧
      (run_migration_down exec files st f).err = none ∧
      (run_migration_down exec files st f).st = st) ∨
    ((run_migration_down exec files st f).log = [LogMsg.errorRollingBack f] ∧
      (run_migration_down exec files st f).err = some (Err.execError f) ∧
      (run_migration_down exec files st f).st = st) ∨
    ((run_migration_down exec files st f).log = [LogMsg.rolledBack f] ∧
      (run_migration_down exec files st f).err = none ∧
      (run_migration_down exec files st f).st.ledger =
        st.ledger.filter (fun v => decide (v ≠ f))) := by
  rcases hl : files.lookup f with _ | content
  · exact Or.inl (by simp [run_migration_down, hl])
  · rcases hdb : codeDownBody content.data with _ | dsql
    · exact Or.inr (Or.inl (by simp [run_migration_down, hl, hdb]))
    · rcases he : exec st.schema dsql with _ | sch
      · exact Or.inr (Or.inr (Or.inl (by simp [run_migration_down, hl, hdb, he])))
      · exact Or.inr (Or.inr (Or.inr (by simp [run_migration_down, hl, hdb, he])))

theorem runDownList_fail_fast_lemma {σ : Type} (exec : σ → Text → Option σ)
    (files : List (String × String)) (st : DBState σ) (m : String)
    (rest : List String) (e : Err)
    (h : (run_migration_down exec files st m).err = some e) :
    runDownList exec files st (m :: rest) =
      run_migration_down exec files st m := by
  simp [runDownList, h]

theorem runDownList_cons_ok {σ : Type} (exec : σ → Text → Option σ)
    (files : List (String × String)) (st : DBState σ) (m : String)
    (rest : List String)
    (h : (run_migration_down exec files st m).err = none) :
    runDownList exec files st (m :: rest) =
      ⟨(runDownList exec files (run_migration_down exec files st m).st rest).st,
       (run_migration_down exec files st m).log ++
         (runDownList exec files
           (run_migration_down exec files st m).st rest).log,
       (run_migration_down exec files st m).sqlTrace ++
         (runDownList exec files
           (run_migration_down exec files st m).st rest).sqlTrace,
       (runDownList exec files
         (run_migration_down exec files st m).st rest).err⟩ := by
  simp [runDownList, h]

theorem filter_ne_notMem (l : List String) (m : String) (ms : List String) :
    (l.filter (fun v => decide (v ≠ m))).filter (fun v => decide (v ∉ ms)) =
      l.filter (fun v => decide (v ∉ m :: ms)) := by
  rw [List.filter_filter]
  apply List.filter_congr
  intro x _
  by_cases h1 : x = m <;> by_cases h2 : x ∈ ms <;> simp [h1, h2]

theorem runDownList_all_ok {σ : Type} (exec : σ → Text → Option σ)
    (files : List (String × String)) :
    ∀ (ms : List String) (st : DBState σ),
      (runDownList exec files st ms).log = ms.map LogMsg.rolledBack →
      (runDownList exec files st ms).st.ledger =
        st.ledger.filter (fun v => decide (v ∉ ms)) ∧
      (runDownList exec files st ms).err = none
  | [], st, _ => by simp [runDownList]
  | m :: rest, st, h => by
    rcases he : (run_migration_down exec files st m).err with _ | e
    · rw [runDownList_cons_ok exec files st m rest he] at h ⊢
      dsimp only at h ⊢
      rcases run_migration_down_cases exec files st m with
        ⟨_, h2⟩ | ⟨h1, _, _⟩ | ⟨_, h2, _⟩ | ⟨h1, _, hled⟩
      · rw [he] at h2; cases h2
      · rw [h1] at h; simp at h
      · rw [he] at h2; cases h2
      · rw [h1] at h
        simp only [List.map_cons, List.cons_append, List.nil_append,
          List.cons.injEq] at h
        have ih := runDownList_all_ok exec files rest
          (run_migration_down exec files st m).st h.2
        refine ⟨?_, ih.2⟩
        rw [ih.1, hled, filter_ne_notMem]
    · rw [runDownList_fail_fast_lemma exec files st m rest e he] at h
      rcases run_migration_down_cases exec files st m with
        ⟨h1, _⟩ | ⟨_, h2, _⟩ | ⟨h1, _, _⟩ | ⟨_, h2, _⟩
      · rw [h1] at h; cases h
      · rw [he] at h2; cases h2
      · rw [h1] at h; simp at h
      · rw [he] at h2; cases h2

/-- C7: reset() on applied list [A, B, C] performs the single-step rollbacks
in exactly the order C, B, A; when every rollback succeeds the ledger ends
empty with no error; and a failing rollback stops the remaining sequence
immediately, propagating the failure. -/
theorem reset_reverse_order_and_empties {σ : Type} (exec : σ → Text → Option σ)
    (files : List (String × String)) (st : DBState σ) (a b c : String)
    (hap : get_applied_migrations st = [a, b, c])
    (hall : (migrate_reset exec files st).log =
      [LogMsg.rolledBack c, LogMsg.rolledBack b, LogMsg.rolledBack a]) :
    (migrate_reset exec files st = runDownList exec files st [c, b, a] ∧
     (migrate_reset exec files st).st.ledger = [] ∧
     (migrate_reset exec files st).err = none) ∧
    (∀ (st' : DBState σ) (m : String) (rest : List String) (e : Err),
      (run_migration_down exec files st' m).err = some e →
      runDownList exec files st' (m :: rest) =
        run_migration_down exec files st' m) := by
  have hrs : migrate_reset exec files st =
      runDownList exec files st [c, b, a] := by
    simp [migrate_reset, create_migrations_table, hap]
  rw [hrs] at hall ⊢
  have hres := runDownList_all_ok exec files [c, b, a] st (by simpa using hall)
  refine ⟨⟨rfl, ?_, hres.2⟩,
    fun st' m rest e h => runDownList_fail_fast_lemma exec files st' m rest e h⟩
  rw [hres.1, List.filter_eq_nil_iff]
  intro v hv
  have hvap : v ∈ get_applied_migrations st := mem_pySorted.mpr hv
  rw [hap] at hvap
  simp only [List.mem_cons, List.not_mem_nil] at hvap
  rcases hvap with rfl | rfl | rfl | hf
  · simp
  · simp
  · simp
  · exact absurd hf (by simp)

theorem reset_reverse_order_and_empties_witness :
    migrate_reset (fun (n : Nat) _ => some (n + 1))
        [("001.sql", "a;\n-- DOWN\nda;"), ("002.sql", "b;\n-- DOWN\ndb;"),
         ("003.sql", "c;\n-- DOWN\ndc;")] ⟨["002.sql", "003.sql", "001.sql"], 0⟩ =
      runDownList (fun (n : Nat) _ => some (n + 1))
        [("001.sql", "a;\n-- DOWN\nda;"), ("002.sql", "b;\n-- DOWN\ndb;"),
         ("003.sql", "c;\n-- DOWN\ndc;")] ⟨["002.sql", "003.sql", "001.sql"], 0⟩
        ["003.sql", "002.sql", "001.sql"] ∧
     (migrate_reset (fun (n : Nat) _ => some (n + 1))
        [("001.sql", "a;\n-- DOWN\nda;"), ("002.sql", "b;\n-- DOWN\ndb;"),
         ("003.sql", "c;\n-- DOWN\ndc;")]
        ⟨["002.sql", "003.sql", "001.sql"], 0⟩).st.ledger = [] ∧
     (migrate_reset (fun (n : Nat) _ => some (n + 1))
        [("001.sql", "a;\n-- DOWN\nda;"), ("002.sql", "b;\n-- DOWN\ndb;"),
         ("003.sql", "c;\n-- DOWN\ndc;")]
        ⟨["002.sql", "003.sql", "001.sql"], 0⟩).err = none :=
  (reset_reverse_order_and_empties (fun (n : Nat) _ => some (n + 1))
    [("001.sql", "a;\n-- DOWN\nda;"), ("002.sql", "b;\n-- DOWN\ndb;"),
     ("003.sql", "c;\n-- DOWN\ndc;")] ⟨["002.sql", "003.sql", "001.sql"], 0⟩
    "001.sql" "002.sql" "003.sql" (by decide) (by decide)).1

/-! Round trip of down() followed by up(). -/

theorem get_migration_files_nodup {files : List (String × String)}
    (h : (files.map Prod.fst).Nodup) : (get_migration_files files).Nodup :=
  (pySorted_perm _).nodup_iff.mpr (h.filter _)

theorem filter_eq_singleton {l : List String} {p : String → Bool} {m : String}
    (hnd : l.Nodup) (hm : m ∈ l) (hpm : p m = true)
    (hother : ∀ x ∈ l, x ≠ m → p x = false) :
    l.filter p = [m] := by
  induction l with
  | nil => cases hm
  | cons a t ih =>
    rcases List.mem_cons.mp hm with rfl | hmt
    · rw [List.filter_cons_of_pos hpm]
      congr 1
      rw [List.filter_eq_nil_iff]
      intro x hx
      have hxm : x ≠ m := fun hh => (List.nodup_cons.mp hnd).1 (hh ▸ hx)
      simp [hother x (List.mem_cons_of_mem _ hx) hxm]
    · have ham : a ≠ m := fun hh => (List.nodup_cons.mp hnd).1 (hh ▸ hmt)
      rw [List.filter_cons_of_neg
        (by simp [hother a (List.mem_cons_self a t) ham])]
      exact ih (List.nodup_cons.mp hnd).2 hmt
        (fun x hx hxm => hother x (List.mem_cons_of_mem _ hx) hxm)

/-- C8 counterexample: from ledger [001] with file 002 still pending, a
successful down() followed by a successful up() does not restore the ledger:
up() also applies the other pending file. -/
theorem down_then_up_round_trip_cex :
    (migrate_down (fun (n : Nat) _ => some (n + 1))
      [("001_a.sql", "create a;\n-- DOWN\ndrop a;"), ("002_b.sql", "create b;")]
      ⟨["001_a.sql"], 0⟩).err = none ∧
    (migrate_up (fun (n : Nat) _ => some (n + 1))
      [("001_a.sql", "create a;\n-- DOWN\ndrop a;"), ("002_b.sql", "create b;")]
      (migrate_down (fun (n : Nat) _ => some (n + 1))
        [("001_a.sql", "create a;\n-- DOWN\ndrop a;"), ("002_b.sql", "create b;")]
        ⟨["001_a.sql"], 0⟩).st).err = none ∧
    get_applied_migrations
        (migrate_up (fun (n : Nat) _ => some (n + 1))
          [("001_a.sql", "create a;\n-- DOWN\ndrop a;"),
           ("002_b.sql", "create b;")]
          (migrate_down (fun (n : Nat) _ => some (n + 1))
            [("001_a.sql", "create a;\n-- DOWN\ndrop a;"),
             ("002_b.sql", "create b;")] ⟨["001_a.sql"], 0⟩).st).st ≠
      get_applied_migrations (⟨["001_a.sql"], 0⟩ : DBState Nat) := by decide

/-- C8 (amended): when the ledger and the discoverable migrations agree (no
other pending work, no applied file missing from the directory) and both
runs succeed, down() followed immediately by up() restores the applied list
exactly. -/
theorem down_then_up_round_trip {σ : Type} (exec : σ → Text → Option σ)
    (files : List (String × String)) (st : DBState σ)
    (hnd : st.ledger.Nodup) (hfnd : (files.map Prod.fst).Nodup)
    (hM2L : ∀ m ∈ get_migration_files files, m ∈ st.ledger)
    (hL2M : ∀ m ∈ st.ledger, m ∈ get_migration_files files)
    (hd : (migrate_down exec files st).err = none)
    (hu : (migrate_up exec files (migrate_down exec files st).st).err = none) :
    get_applied_migrations
        (migrate_up exec files (migrate_down exec files st).st).st =
      get_applied_migrations st := by
  have hpend : ∀ X : DBState σ, (∀ m ∈ get_migration_files files, m ∈ X.ledger) →
      pendingOf files X = [] := by
    intro X hX
    unfold pendingOf
    rw [List.filter_eq_nil_iff]
    intro m hm
    simp only [decide_eq_true_eq, Decidable.not_not, get_applied_migrations,
      mem_pySorted]
    exact hX m hm
  rcases hlast : (get_applied_migrations st).getLast? with _ | m
  · have hdown_eq : migrate_down exec files st =
        ⟨st, [LogMsg.noneToRollback], [], none⟩ := by
      simp [migrate_down, create_migrations_table, hlast]
    rw [hdown_eq]
    dsimp only
    rw [migrate_up_no_pending exec files st (hpend st hM2L)]
  · have hdown : migrate_down exec files st =
        run_migration_down exec files st m := by
      simp [migrate_down, create_migrations_table, hlast]
    have hmL : m ∈ st.ledger := mem_pySorted.mp (getLast?_mem_self hlast)
    rcases hl : files.lookup m with _ | content
    · rw [hdown] at hd
      simp [run_migration_down, hl] at hd
    · rcases hdb : codeDownBody content.data with _ | dsql
      · have hstD : migrate_down exec files st =
            ⟨st, [LogMsg.noDown m], [], none⟩ := by
          rw [hdown]
          simp [run_migration_down, hl, hdb]
        rw [hstD]
        dsimp only
        rw [migrate_up_no_pending exec files st (hpend st hM2L)]
      · rcases he : exec st.schema dsql with _ | sch
        · rw [hdown] at hd
          simp [run_migration_down, hl, hdb, he] at hd
        · have hstD : (migrate_down exec files st).st =
              ⟨st.ledger.filter (fun v => decide (v ≠ m)), sch⟩ := by
            rw [hdown]
            simp [run_migration_down, hl, hdb, he]
          have hmM : m ∈ get_migration_files files := hL2M m hmL
          have hpend2 : pendingOf files (migrate_down exec files st).st = [m] := by
            rw [hstD]
            unfold pendingOf
            apply filter_eq_singleton (get_migration_files_nodup hfnd) hmM
            · simp [get_applied_migrations, mem_pySorted, List.mem_filter]
            · intro x hx hxm
              have hxL : x ∈ st.ledger := hM2L x hx
              simp [get_applied_migrations, mem_pySorted, List.mem_filter,
                hxL, hxm]
          have hup : migrate_up exec files (migrate_down exec files st).st =
              runUpList exec files (migrate_down exec files st).st [m] := by
            simp [migrate_up, create_migrations_table, hpend2]
          rw [hup] at hu ⊢
          have hled :=
            (runUpList_ok exec files [m] (migrate_down exec files st).st hu).1
          rw [get_applied_migrations, get_applied_migrations, hled, hstD]
          dsimp only
          apply pySorted_eq_of_perm
          have hfe : st.ledger.filter (fun v => decide (v ≠ m)) =
              st.ledger.erase m := by
            rw [hnd.erase_eq_filter m]
            apply List.filter_congr
            intro x _
            by_cases hx : x = m <;> simp [hx, bne_iff_ne]
          refine List.perm_append_comm.trans ?_

          show (m :: st.ledger.filter fun v => decide (v ≠ m)).Perm st.ledger
          rw [hfe]
          exact (List.perm_cons_erase hmL).symm

theorem down_then_up_round_trip_witness :
    get_applied_migrations
        (migrate_up (fun (n : Nat) _ => some (n + 1))
          [("001_a.sql", "create a;\n-- DOWN\ndrop a;")]
          (migrate_down (fun (n : Nat) _ => some (n + 1))
            [("001_a.sql", "create a;\n-- DOWN\ndrop a;")]
            ⟨["001_a.sql"], 0⟩).st).st =
      get_applied_migrations (⟨["001_a.sql"], 0⟩ : DBState Nat) :=
  down_then_up_round_trip (fun (n : Nat) _ => some (n + 1))
    [("001_a.sql", "create a;\n-- DOWN\ndrop a;")] ⟨["001_a.sql"], 0⟩
    (by decide) (by decide) (by decide) (by decide) (by decide) (by decide)

/-! The seed runner. -/

theorem lookup_of_mem_fst {f : String} :
    ∀ entries : List (String × String),
      f ∈ entries.map Prod.fst → ∃ c, entries.lookup f = some c
  | [], h => by cases h
  | (k, v) :: t, h => by
    rw [List.map_cons] at h
    by_cases hf : f = k
    · exact ⟨v, by simp [List.lookup, hf]⟩
    · rcases List.mem_cons.mp h with h1 | h1
      · exact absurd h1 hf
      · obtain ⟨c, hc⟩ := lookup_of_mem_fst t h1
        exact ⟨c, by simp [List.lookup, hc, beq_eq_false_iff_ne.mpr hf]⟩

theorem seedFilesOf_subset {entries : List (String × String)} (f : String)
    (hf : f ∈ seedFilesOf entries) : f ∈ entries.map Prod.fst :=
  (List.mem_filter.mp (mem_pySorted.mp hf)).1

theorem runSeedList_ok {σ : Type} (exec : σ → Text → Option σ)
    (entries : List (String × String)) :
    ∀ (names : List String) (st : DBState σ),
      (∀ g ∈ names, g ∈ entries.map Prod.fst) →
      (runSeedList exec entries st names).err = none ∧
      List.Forall₂ (fun g msg => msg = LogMsg.seeded g ∨
          msg = LogMsg.errorSeeding g)
        names (runSeedList exec entries st names).log
  | [], st, _ => by simp [runSeedList]
  | f :: rest, st, hmem => by
    obtain ⟨c, hc⟩ :=
      lookup_of_mem_fst entries (hmem f (List.mem_cons_self f rest))
    rcases he : exec st.schema c.data with _ | sch
    · have hstep : runSeedList exec entries st (f :: rest) =
          ⟨(runSeedList exec entries st rest).st,
           LogMsg.errorSeeding f :: (runSeedList exec entries st rest).log,
           c.data :: (runSeedList exec entries st rest).sqlTrace,
           (runSeedList exec entries st rest).err⟩ := by
        simp [runSeedList, hc, he]
      rw [hstep]
      dsimp only
      have ih := runSeedList_ok exec entries rest st
        (fun g hg => hmem g (List.mem_cons_of_mem _ hg))
      exact ⟨ih.1, List.Forall₂.cons (Or.inr rfl) ih.2⟩
    · have hstep : runSeedList exec entries st (f :: rest) =
          ⟨(runSeedList exec entries ⟨st.ledger, sch⟩ rest).st,
           LogMsg.seeded f ::
             (runSeedList exec entries ⟨st.ledger, sch⟩ rest).log,
           c.data :: (runSeedList exec entries ⟨st.ledger, sch⟩ rest).sqlTrace,
           (runSeedList exec entries ⟨st.ledger, sch⟩ rest).err⟩ := by
        simp [runSeedList, hc, he]
      rw [hstep]
      dsimp only
      have ih := runSeedList_ok exec entries rest ⟨st.ledger, sch⟩
        (fun g hg => hmem g (List.mem_cons_of_mem _ hg))
      exact ⟨ih.1, List.Forall₂.cons (Or.inl rfl) ih.2⟩

theorem run_seeds_err_none {σ : Type} (exec : σ → Text → Option σ)
    (seeds : Option (List (String × String))) (st : DBState σ) :
    (run_seeds exec seeds st).err = none := by
  rcases seeds with _ | entries
  · simp [run_seeds]
  · by_cases hs : seedFilesOf entries = []
    · simp [run_seeds, hs]
    · have h0 := (runSeedList_ok exec entries (seedFilesOf entries) st
        (fun g hg => seedFilesOf_subset g hg)).1
      simp [run_seeds, hs, h0]

/-- C9: every seed file is executed in its own unit in ascending identifier
order; a failing seed is reported, its unit alone is rolled back (the next
file starts from the untouched state), the loop continues, no exception
escapes, and the process exits 0. -/
theorem seeds_isolated_and_exit_zero {σ : Type} (exec : σ → Text → Option σ)
    (files : List (String × String)) (entries : List (String × String))
    (st : DBState σ) :
    (run_seeds exec (some entries) st).err = none ∧
    (mainCmd exec files (some entries) st ["seed"]).2 = 0 ∧
    (∀ (st' : DBState σ) (f content : String) (rest : List String),
      entries.lookup f = some content →
      exec st'.schema content.data = none →
      runSeedList exec entries st' (f :: rest) =
        ⟨(runSeedList exec entries st' rest).st,
         LogMsg.errorSeeding f :: (runSeedList exec entries st' rest).log,
         content.data :: (runSeedList exec entries st' rest).sqlTrace,
         (runSeedList exec entries st' rest).err⟩) ∧
    List.Forall₂ (fun g msg => msg = LogMsg.seeded g ∨
        msg = LogMsg.errorSeeding g)
      (seedFilesOf entries)
      (runSeedList exec entries st (seedFilesOf entries)).log := by
  have h0 := run_seeds_err_none exec (some entries) st
  refine ⟨h0, ?_, ?_, ?_⟩
  · simp [mainCmd, h0]
  · intro st' f content rest hlk hex
    simp [runSeedList, hlk, hex]
  · exact (runSeedList_ok exec entries (seedFilesOf entries) st
      (fun g hg => seedFilesOf_subset g hg)).2

theorem seeds_isolated_and_exit_zero_witness :
    (mainCmd (fun (n : Nat) s => if s = "bad;".data then none else some (n + 1))
      [] (some [("s1.sql", "a;"), ("s2.sql", "bad;"), ("s3.sql", "c;")])
      ⟨[], 0⟩ ["seed"]).2 = 0 ∧
    List.Forall₂ (fun g msg => msg = LogMsg.seeded g ∨
        msg = LogMsg.errorSeeding g)
      (seedFilesOf [("s1.sql", "a;"), ("s2.sql", "bad;"), ("s3.sql", "c;")])
      (runSeedList (fun (n : Nat) s => if s = "bad;".data then none
          else some (n + 1))
        [("s1.sql", "a;"), ("s2.sql", "bad;"), ("s3.sql", "c;")] ⟨[], 0⟩
        (seedFilesOf [("s1.sql", "a;"), ("s2.sql", "bad;"), ("s3.sql", "c;")])).log :=
  ⟨(seeds_isolated_and_exit_zero
      (fun (n : Nat) s => if s = "bad;".data then none else some (n + 1)) []
      [("s1.sql", "a;"), ("s2.sql", "bad;"), ("s3.sql", "c;")] ⟨[], 0⟩).2.1,
   (seeds_isolated_and_exit_zero
      (fun (n : Nat) s => if s = "bad;".data then none else some (n + 1)) []
      [("s1.sql", "a;"), ("s2.sql", "bad;"), ("s3.sql", "c;")] ⟨[], 0⟩).2.2.2⟩

theorem runSeedList_log_src {σ : Type} (exec : σ → Text → Option σ)
    (entries : List (String × String)) :
    ∀ (names : List String) (st : DBState σ) (g : String),
      (LogMsg.seeded g ∈ (runSeedList exec entries st names).log ∨
       LogMsg.errorSeeding g ∈ (runSeedList exec entries st names).log) →
      g ∈ names
  | [], st, g, h => by simp [runSeedList] at h
  | f :: rest, st, g, h => by
    rcases hc : entries.lookup f with _ | c
    · simp [runSeedList, hc] at h
    · rcases he : exec st.schema c.data with _ | sch
      · have hstep : (runSeedList exec entries st (f :: rest)).log =
            LogMsg.errorSeeding f :: (runSeedList exec entries st rest).log := by
          simp [runSeedList, hc, he]
        rw [hstep] at h
        rcases h with h | h
        · rcases List.mem_cons.mp h with h1 | h1
          · cases h1
          · exact List.mem_cons_of_mem _
              (runSeedList_log_src exec entries rest st g (Or.inl h1))
        · rcases List.mem_cons.mp h with h1 | h1
          · simp only [LogMsg.errorSeeding.injEq] at h1
            rw [h1]
            exact List.mem_cons_self f rest
          · exact List.mem_cons_of_mem _
              (runSeedList_log_src exec entries rest st g (Or.inr h1))
      · have hstep : (runSeedList exec entries st (f :: rest)).log =
            LogMsg.seeded f ::
              (runSeedList exec entries ⟨st.ledger, sch⟩ rest).log := by
          simp [runSeedList, hc, he]
        rw [hstep] at h
        rcases h with h | h
        · rcases List.mem_cons.mp h with h1 | h1
          · simp only [LogMsg.seeded.injEq] at h1
            rw [h1]
            exact List.mem_cons_self f rest
          · exact List.mem_cons_of_mem _
              (runSeedList_log_src exec entries rest ⟨st.ledger, sch⟩ g
                (Or.inl h1))
        · rcases List.mem_cons.mp h with h1 | h1
          · cases h1
          · exact List.mem_cons_of_mem _
              (runSeedList_log_src exec entries rest ⟨st.ledger, sch⟩ g
                (Or.inr h1))

/-- C10: a file named with the seed prefix and the .sql suffix that sits in
the migration directory is run by no command - up() excludes it from
discovery (hence from pending), and seed() only ever reports files listed in
the seeds subdirectory, which it is not part of. -/
theorem seed_named_file_never_runs {σ : Type} (exec : σ → Text → Option σ)
    (f : String) (hpre : ("seed_".data).isPrefixOf f.data = true)
    (_hsuf : (".sql".data).isSuffixOf f.data = true)
    (files : List (String × String)) (st : DBState σ) :
    f ∉ get_migration_files files ∧
    f ∉ pendingOf files st ∧
    (∀ entries : List (String × String), f ∉ entries.map Prod.fst →
      LogMsg.seeded f ∉ (run_seeds exec (some entries) st).log ∧
      LogMsg.errorSeeding f ∉ (run_seeds exec (some entries) st).log) := by
  have h1 : f ∉ get_migration_files files := by
    intro hf
    have hmem := List.mem_filter.mp (mem_pySorted.mp hf)
    simp [hpre] at hmem
  have h2 : f ∉ pendingOf files st := fun hf => h1 (mem_pendingOf.mp hf).1
  refine ⟨h1, h2, ?_⟩
  intro entries hfe
  have hnotin : f ∉ seedFilesOf entries :=
    fun hf => hfe (seedFilesOf_subset f hf)
  by_cases hs : seedFilesOf entries = []
  · constructor <;> simp [run_seeds, hs]
  · have hrw : run_seeds exec (some entries) st =
        runSeedList exec entries st (seedFilesOf entries) := by
      simp [run_seeds, hs]
    rw [hrw]
    constructor
    · intro hmem
      exact hnotin (runSeedList_log_src exec entries (seedFilesOf entries) st f
        (Or.inl hmem))
    · intro hmem
      exact hnotin (runSeedList_log_src exec entries (seedFilesOf entries) st f
        (Or.inr hmem))

theorem seed_named_file_never_runs_witness :
    "seed_extra.sql" ∉ get_migration_files
      [("seed_extra.sql", "x;"), ("001.sql", "y;")] ∧
    "seed_extra.sql" ∉ pendingOf
      [("seed_extra.sql", "x;"), ("001.sql", "y;")] (⟨[], 0⟩ : DBState Nat) ∧
    LogMsg.seeded "seed_extra.sql" ∉
      (run_seeds (fun (n : Nat) _ => some (n + 1)) (some [("s1.sql", "a;")])
        (⟨[], 0⟩ : DBState Nat)).log ∧
    LogMsg.errorSeeding "seed_extra.sql" ∉
      (run_seeds (fun (n : Nat) _ => some (n + 1)) (some [("s1.sql", "a;")])
        (⟨[], 0⟩ : DBState Nat)).log :=
  ⟨(seed_named_file_never_runs (fun (n : Nat) _ => some (n + 1))
      "seed_extra.sql" (by decide) (by decide)
      [("seed_extra.sql", "x;"), ("001.sql", "y;")] ⟨[], 0⟩).1,
   (seed_named_file_never_runs (fun (n : Nat) _ => some (n + 1))
      "seed_extra.sql" (by decide) (by decide)
      [("seed_extra.sql", "x;"), ("001.sql", "y;")] ⟨[], 0⟩).2.1,
   ((seed_named_file_never_runs (fun (n : Nat) _ => some (n + 1))
      "seed_extra.sql" (by decide) (by decide)
      [("seed_extra.sql", "x;"), ("001.sql", "y;")] ⟨[], 0⟩).2.2
      [("s1.sql", "a;")] (by decide)).1,
   ((seed_named_file_never_runs (fun (n : Nat) _ => some (n + 1))
      "seed_extra.sql" (by decide) (by decide)
      [("seed_extra.sql", "x;"), ("001.sql", "y;")] ⟨[], 0⟩).2.2
      [("s1.sql", "a;")] (by decide)).2⟩

end Migrate
